import Mathlib

/-!
Verification of the sfx-board clip-import script (src/import-clips.py).

The script loads a JSON catalog `{"clips": [{"name": ..., "file": ...}, ...]}`,
builds the set of existing `file` values, lists a directory, and for every
entry ending in `.mp3` whose relative path `audio-clips/<entry>` is not in
that set appends a record `{"name": splitext(entry)[0], "file": relative_path}`
to the clip list, then writes the catalog back.

Two levels of embedding:
* a typed level (`Clip`, `reconcile`) for the reconciliation loop on
  well-shaped catalogs;
* a raw-JSON level (`JVal`, `importClips`) for the error behaviour of the
  whole pass, where the document may have the wrong shape.
-/

/-- One catalog record: `{"name": ..., "file": ...}`. -/
structure Clip where
  name : String
  file : String
deriving DecidableEq, Repr

/-- Index of the last occurrence of `c` in `cs`, if any
(the list-level content of Python's `str.rfind`, which returns -1 on absence). -/
def lastIdx (c : Char) : List Char → Option Nat
  | [] => none
  | a :: rest =>
    match lastIdx c rest with
    | some i => some (i + 1)
    | none => if a = c then some 0 else none

/-- Python's `str.rfind(c)`: index of the last occurrence of `c`, or -1. -/
def rfind (c : Char) (cs : List Char) : Int :=
  match lastIdx c cs with
  | some i => (i : Int)
  | none => -1

/-- Python's `os.path.splitext` on POSIX (`genericpath._splitext` with slash as
`sep`, no `altsep`, dot as `extsep`,
): split at the last dot, unless that dot lies at
or before the last path separator or every character of the basename before it
is itself a dot (leading dots of a basename begin no extension). -/
def splitext (p : List Char) : List Char × List Char :=
  let sepIndex := rfind '/' p
  let dotIndex := rfind '.' p
  if sepIndex < dotIndex then
    if ((p.take dotIndex.toNat).drop (sepIndex + 1).toNat).all (· = '.') then
      (p, [])
    else
      (p.take dotIndex.toNat, p.drop dotIndex.toNat)
  else (p, [])

/-- First component of `os.path.splitext(mp3_file)`: the clip name derived
from a filename. -/
def clip_name (mp3_file : String) : String :=
  String.mk (splitext mp3_file.data).1

/-- Python's `mp3_file.endswith('.mp3')`: case-sensitive literal suffix test. -/
def isMp3 (mp3_file : String) : Bool :=
  decide (".mp3".data <:+ mp3_file.data)

/-- The f-string on line 17 of the script: the fixed segment `audio-clips/`
joined with the entry name. -/
def relative_path (mp3_file : String) : String :=
  "audio-clips/" ++ mp3_file

/-- The set comprehension on line 12 of the script — the set of existing
`file` values, modelled as the list of those values (only membership is
used). -/
def existing_files (clips : List Clip) : List String :=
  clips.map (·.file)

/-- One iteration of the script's `for mp3_file in os.listdir(...)` loop:
filter on the `.mp3` suffix, build the relative path, and append a fresh
record unless the path is already among the existing `file` values.
`existing` is the snapshot taken before the loop; the script never adds the
appended paths to it. -/
def reconcile_step (existing : List String) (acc : List Clip) (mp3_file : String) :
    List Clip :=
  if isMp3 mp3_file then
    if relative_path mp3_file ∈ existing then acc
    else acc ++ [⟨clip_name mp3_file, relative_path mp3_file⟩]
  else acc

/-- The whole reconciliation: fold the loop body over the directory listing,
starting from the loaded clip list, with `existing_files` computed once
before the loop (lines 12–20 of the script). -/
def reconcile (clips : List Clip) (listing : List String) : List Clip :=
  listing.foldl (reconcile_step (existing_files clips)) clips

/-- The records a run appends, as a filter-and-map over the listing. -/
def new_clips (clips : List Clip) (listing : List String) : List Clip :=
  (listing.filter fun m =>
      isMp3 m && !(decide (relative_path m ∈ existing_files clips))).map
    fun m => ⟨clip_name m, relative_path m⟩

example : reconcile [⟨"boom", "audio-clips/boom.mp3"⟩] ["boom.mp3", "zap.mp3"] =
    [⟨"boom", "audio-clips/boom.mp3"⟩, ⟨"zap", "audio-clips/zap.mp3"⟩] := by decide

example : clip_name ".mp3" = ".mp3" := by decide

example : clip_name "..mp3" = "..mp3" := by decide

example : clip_name "a.b.mp3" = "a.b" := by decide

example : isMp3 "LOUD.MP3" = false := by decide

/-! ### Basic lemmas about the reconciliation fold -/

/-- Unrolling the loop: folding `reconcile_step` over a listing appends, to the
accumulator, the record of every entry that passes both checks, in listing
order. -/
lemma foldl_reconcile_step (E : List String) (l : List String) (acc : List Clip) :
    l.foldl (reconcile_step E) acc =
      acc ++ (l.filter fun m => isMp3 m && !(decide (relative_path m ∈ E))).map
        fun m => ⟨clip_name m, relative_path m⟩ := by
  induction l generalizing acc with
  | nil => simp
  | cons m l ih =>
    rw [List.foldl_cons, ih, List.filter_cons]
    by_cases h1 : isMp3 m
    · by_cases h2 : relative_path m ∈ E
      · simp [reconcile_step, h1, h2]
      · simp [reconcile_step, h1, h2]
    · simp [reconcile_step, h1]

/-- A run leaves the loaded records in place and appends `new_clips`. -/
lemma reconcile_eq (clips : List Clip) (listing : List String) :
    reconcile clips listing = clips ++ new_clips clips listing :=
  foldl_reconcile_step (existing_files clips) listing clips

/-- Joining the fixed segment is injective: distinct entries get distinct
relative paths. -/
lemma relative_path_injective : Function.Injective relative_path := by
  intro a b h
  have hd := congrArg String.data h
  rw [relative_path, relative_path, String.data_append, String.data_append] at hd
  exact String.ext (List.append_cancel_left hd)

/-! ### Claim theorems: frame, order, filtering, idempotence, noninterference -/

/-- C3. No-loss / frame: the output clip list is the input clip list followed
by the appended records — every pre-existing record survives with unchanged
`name` and `file`, in its original relative order, and only appends occur. -/
theorem reconcile_frame (clips : List Clip) (listing : List String) :
    reconcile clips listing = clips ++ new_clips clips listing :=
  reconcile_eq clips listing

/-- C7. Append order: the records a run appends (everything past the original
length) form an order-preserving selection from the listing's records — they
appear in the same relative order as their entries in the scanner's
enumeration. -/
theorem reconcile_append_order (clips : List Clip) (listing : List String) :
    List.Sublist ((reconcile clips listing).drop clips.length)
      (listing.map fun m => ⟨clip_name m, relative_path m⟩) := by
  rw [reconcile_eq, List.drop_left]
  unfold new_clips
  exact (List.filter_sublist listing).map _

/-- C9. Noninterference: the appended records depend only on the existing
records' `file` values and the listing, never on their `name` values. -/
theorem reconcile_ignores_names (clips₁ clips₂ : List Clip) (listing : List String)
    (h : clips₁.map (·.file) = clips₂.map (·.file)) :
    (reconcile clips₁ listing).drop clips₁.length =
      (reconcile clips₂ listing).drop clips₂.length := by
  rw [reconcile_eq, reconcile_eq, List.drop_left, List.drop_left]
  unfold new_clips existing_files
  rw [h]

theorem reconcile_ignores_names_witness :
    ([⟨"boom", "audio-clips/boom.mp3"⟩] : List Clip).map (·.file) =
        ([⟨"BOOM", "audio-clips/boom.mp3"⟩] : List Clip).map (·.file) ∧
      (reconcile [⟨"boom", "audio-clips/boom.mp3"⟩] ["zap.mp3"]).drop 1 =
        (reconcile [⟨"BOOM", "audio-clips/boom.mp3"⟩] ["zap.mp3"]).drop 1 :=
  ⟨by decide,
    reconcile_ignores_names [⟨"boom", "audio-clips/boom.mp3"⟩]
      [⟨"BOOM", "audio-clips/boom.mp3"⟩] ["zap.mp3"] (by decide)⟩

/-- C6. Filtering: an entry whose name does not end in the literal,
case-sensitive suffix `.mp3` contributes nothing — the run behaves as if the
entry were absent, for every catalog and remaining listing. -/
theorem non_mp3_appends_nothing (clips : List Clip) (listing : List String)
    (m : String) (h : isMp3 m = false) :
    reconcile clips (m :: listing) = reconcile clips listing := by
  unfold reconcile
  rw [List.foldl_cons]
  congr 1
  simp [reconcile_step, h]

theorem non_mp3_appends_nothing_witness :
    isMp3 "LOUD.MP3" = false ∧
      reconcile [] ["LOUD.MP3"] = reconcile [] [] :=
  ⟨by decide, non_mp3_appends_nothing [] [] "LOUD.MP3" (by decide)⟩

/-- C2. Idempotence: the output of a run is a fixed point — running the
reconciliation again with the same listing appends nothing. -/
theorem reconcile_idempotent (clips : List Clip) (listing : List String) :
    reconcile (reconcile clips listing) listing = reconcile clips listing := by
  rw [reconcile_eq (reconcile clips listing) listing]
  suffices h : new_clips (reconcile clips listing) listing = [] by
    rw [h, List.append_nil]
  unfold new_clips
  rw [List.filter_eq_nil_iff.mpr, List.map_nil]
  intro m hm
  simp only [Bool.and_eq_true, Bool.not_eq_true', decide_eq_false_iff_not, not_and]
  intro h1 h2
  apply h2
  rw [reconcile_eq]
  unfold existing_files
  rw [List.map_append]
  by_cases hmem : relative_path m ∈ existing_files clips
  · exact List.mem_append_left _ hmem
  · refine List.mem_append_right _ ?_
    have hc : (⟨clip_name m, relative_path m⟩ : Clip) ∈ new_clips clips listing := by
      unfold new_clips
      apply List.mem_map_of_mem
      rw [List.mem_filter]
      exact ⟨hm, by simp [h1, hmem]⟩
    exact List.mem_map_of_mem (·.file) hc

/-! ### Completeness and the uniqueness invariant -/

/-- C1. Completeness: an `.mp3` entry of the listing whose relative path is
absent from the catalog's `file` values before the run has exactly one record
with that path after the run. The `Nodup` hypothesis encodes that a directory
lists each entry name once. -/
theorem reconcile_complete (clips : List Clip) (listing : List String) (m : String)
    (hnd : listing.Nodup) (hm : m ∈ listing) (h1 : isMp3 m = true)
    (h2 : relative_path m ∉ existing_files clips) :
    ((reconcile clips listing).countP fun c => decide (c.file = relative_path m)) = 1 := by
  rw [reconcile_eq, List.countP_append]
  have hc : (clips.countP fun c => decide (c.file = relative_path m)) = 0 := by
    apply List.countP_eq_zero.mpr
    intro c hcmem
    simp only [decide_eq_true_eq]
    intro he
    exact h2 (he ▸ List.mem_map_of_mem (·.file) hcmem)
  rw [hc, Nat.zero_add]
  unfold new_clips
  rw [List.countP_map]
  set pr : String → Bool :=
    fun m' => isMp3 m' && !(decide (relative_path m' ∈ existing_files clips)) with hpr
  have hcong : (listing.filter pr).countP
        ((fun c : Clip => decide (c.file = relative_path m)) ∘
          fun m' => ⟨clip_name m', relative_path m'⟩) =
      (listing.filter pr).countP fun m' => m' == m := by
    apply List.countP_congr
    intro m' _
    simp only [Function.comp_apply, decide_eq_true_eq, beq_iff_eq]
    exact ⟨fun h => relative_path_injective h, fun h => by rw [h]⟩
  rw [hcong, ← List.count_eq_countP]
  refine List.count_eq_one_of_mem (hnd.filter pr) ?_
  rw [List.mem_filter]
  exact ⟨hm, by simp [hpr, h1, h2]⟩

theorem reconcile_complete_witness :
    (["zap.mp3"] : List String).Nodup ∧
      ((reconcile [] ["zap.mp3"]).countP fun c =>
        decide (c.file = relative_path "zap.mp3")) = 1 :=
  ⟨by decide,
    reconcile_complete [] ["zap.mp3"] "zap.mp3" (by decide) (by decide)
      (by decide) (by decide)⟩

/-- C5, counterexample to the claim as stated: a catalog that already holds
two records with the same `file` value still holds them after a run, so the
invariant does not hold for every input catalog. -/
theorem reconcile_nodup_counterexample :
    ¬ (((reconcile [⟨"a", "x"⟩, ⟨"a", "x"⟩] []).map (·.file)).Nodup) := by
  decide

/-- C5, amended: when the catalog's `file` values are pairwise distinct before
the run and the listing holds no duplicate entry, no two records share a
`file` value after the run. -/
theorem reconcile_nodup_files (clips : List Clip) (listing : List String)
    (hc : (clips.map (·.file)).Nodup) (hl : listing.Nodup) :
    ((reconcile clips listing).map (·.file)).Nodup := by
  rw [reconcile_eq, List.map_append, List.nodup_append]
  refine ⟨hc, ?_, ?_⟩
  · unfold new_clips
    rw [List.map_map]
    exact (hl.filter _).map relative_path_injective
  · intro a ha hb
    unfold new_clips at hb
    rw [List.map_map, List.mem_map] at hb
    obtain ⟨m', hm', rfl⟩ := hb
    rw [List.mem_filter] at hm'
    have := hm'.2
    simp only [Bool.and_eq_true, Bool.not_eq_true', decide_eq_false_iff_not] at this
    exact this.2 ha

theorem reconcile_nodup_files_witness :
    (([⟨"boom", "audio-clips/boom.mp3"⟩] : List Clip).map (·.file)).Nodup ∧
      ((reconcile [⟨"boom", "audio-clips/boom.mp3"⟩]
        ["boom.mp3", "zap.mp3"]).map (·.file)).Nodup :=
  ⟨by decide,
    reconcile_nodup_files [⟨"boom", "audio-clips/boom.mp3"⟩]
      ["boom.mp3", "zap.mp3"] (by decide) (by decide)⟩

/-! ### Extension stripping on `foo ++ ".mp3"` -/

/-- The last occurrence of `c` in `l₁ ++ l₂` lies in `l₂` when `l₂` has one,
else it is the last occurrence in `l₁`. -/
lemma lastIdx_append (c : Char) (l₁ l₂ : List Char) :
    lastIdx c (l₁ ++ l₂) =
      match lastIdx c l₂ with
      | some i => some (l₁.length + i)
      | none => lastIdx c l₁ := by
  induction l₁ with
  | nil =>
    cases h : lastIdx c l₂ with
    | some i => simp [h]
    | none => simp [h, lastIdx]
  | cons a l₁ ih =>
    cases h : lastIdx c l₂ with
    | some i =>
      rw [List.cons_append, lastIdx, ih, h]
      simp only [List.length_cons]
      congr 1
      omega
    | none =>
      rw [List.cons_append, lastIdx, ih, h, lastIdx]

/-- Finding no last occurrence is the same as the character being absent. -/
lemma lastIdx_eq_none_iff (c : Char) (l : List Char) :
    lastIdx c l = none ↔ c ∉ l := by
  induction l with
  | nil => simp [lastIdx]
  | cons a rest ih =>
    rw [lastIdx]
    cases h : lastIdx c rest with
    | some i =>
      have : c ∈ rest := by
        by_contra hc
        rw [← ih] at hc
        rw [h] at hc
        exact Option.noConfusion hc
      simp [this]
    | none =>
      rw [ih] at h
      by_cases hac : a = c
      · simp [hac]
      · have hca : ¬ c = a := fun hca => hac hca.symm
        simp [hac, h, hca]

/-- Splitting `fs ++ ".mp3"`, for a separator-free `fs` holding at least one
character other than the dot: the root is exactly `fs`. -/
lemma splitext_append_mp3 (fs : List Char) (hsep : '/' ∉ fs)
    (hdot : ∃ c ∈ fs, c ≠ '.') :
    splitext (fs ++ ['.', 'm', 'p', '3']) = (fs, ['.', 'm', 'p', '3']) := by
  have hdotIdx : lastIdx '.' (fs ++ ['.', 'm', 'p', '3']) = some fs.length := by
    have h0 : lastIdx '.' ['.', 'm', 'p', '3'] = some 0 := by decide
    rw [lastIdx_append, h0]
    simp
  have hsepIdx : lastIdx '/' (fs ++ ['.', 'm', 'p', '3']) = none := by
    rw [lastIdx_append]
    have h1 : lastIdx '/' ['.', 'm', 'p', '3'] = none := by decide
    rw [h1, (lastIdx_eq_none_iff '/' fs).mpr hsep]
  rw [splitext, rfind, rfind, hdotIdx, hsepIdx]
  have hlt : (-1 : Int) < (fs.length : Int) := by omega
  rw [if_pos hlt]
  have htoNat : ((fs.length : Int)).toNat = fs.length := by omega
  have hnotall : ¬ ((((fs ++ ['.', 'm', 'p', '3']).take
      ((fs.length : Int)).toNat).drop ((-1 : Int) + 1).toNat).all (· = '.')) = true := by
    rw [htoNat, List.take_left]
    norm_num [List.all_eq_true]
    obtain ⟨c, hc, hcd⟩ := hdot
    exact ⟨c, hc, hcd⟩
  rw [if_neg hnotall, htoNat, List.take_left, List.drop_left]

/-- Stripping `.mp3` from `foo ++ ".mp3"` gives back `foo`, provided `foo`
has no path separator and is not made of dots alone. -/
lemma clip_name_append_mp3 (foo : String) (hsep : '/' ∉ foo.data)
    (hdot : ∃ c ∈ foo.data, c ≠ '.') :
    clip_name (foo ++ ".mp3") = foo := by
  rw [clip_name, String.data_append]
  have hm : (".mp3" : String).data = ['.', 'm', 'p', '3'] := rfl
  rw [hm, splitext_append_mp3 foo.data hsep hdot]

/-- Every `foo ++ ".mp3"` passes the suffix filter. -/
lemma isMp3_append (foo : String) : isMp3 (foo ++ ".mp3") = true := by
  rw [isMp3, String.data_append]
  simp [List.suffix_append]

/-! ### Name derivation and the dotfile edge case -/

/-- C10. Dotfile edge case: an entry named exactly `.mp3` passes the suffix
filter and, when its relative path is new, is appended with name `.mp3`
(extension stripping leaves a leading-dot-only filename whole), not with the
empty name. -/
theorem dotfile_mp3_appended (clips : List Clip) (listing : List String)
    (h1 : ".mp3" ∈ listing) (h2 : "audio-clips/.mp3" ∉ existing_files clips) :
    (⟨".mp3", "audio-clips/.mp3"⟩ : Clip) ∈ reconcile clips listing := by
  rw [reconcile_eq]
  refine List.mem_append_right _ ?_
  have hrp : relative_path ".mp3" = "audio-clips/.mp3" := by decide
  have hcn : clip_name ".mp3" = ".mp3" := by decide
  have hrec : (⟨clip_name ".mp3", relative_path ".mp3"⟩ : Clip) =
      ⟨".mp3", "audio-clips/.mp3"⟩ := by rw [hrp, hcn]
  rw [← hrec]
  unfold new_clips
  apply List.mem_map_of_mem
  rw [List.mem_filter]
  refine ⟨h1, ?_⟩
  have him : isMp3 ".mp3" = true := by decide
  rw [hrp]
  simp [him, h2]

theorem dotfile_mp3_appended_witness :
    (".mp3" : String) ∈ ([".mp3"] : List String) ∧
      (⟨".mp3", "audio-clips/.mp3"⟩ : Clip) ∈ reconcile [] [".mp3"] :=
  ⟨by decide, dotfile_mp3_appended [] [".mp3"] (by decide) (by decide)⟩

/-- C4, counterexample to the claim as stated at `foo = ""`: the entry
`"" ++ ".mp3"` is appended, but the record's name is `".mp3"`, not `foo = ""`
— `os.path.splitext` refuses to treat a leading-dot-only filename as bearing
an extension. -/
theorem clip_name_derivation_counterexample :
    reconcile [] ["" ++ ".mp3"] = [⟨".mp3", "audio-clips/.mp3"⟩] ∧
      (".mp3" : String) ≠ ("" : String) := by decide

/-- C4, amended: for a scanned entry `foo ++ ".mp3"` that is appended, the
record's `name` is `foo` and its `file` is `"audio-clips/"` joined with
`foo ++ ".mp3"` — for every `foo` containing a character other than `'.'`
(directory entries never contain `'/'`); a `foo` that is empty or all dots
instead yields the whole filename as the name. -/
theorem clip_name_derivation (clips : List Clip) (listing : List String)
    (foo : String) (hsep : '/' ∉ foo.data) (hdot : ∃ c ∈ foo.data, c ≠ '.')
    (hm : (foo ++ ".mp3") ∈ listing)
    (h2 : relative_path (foo ++ ".mp3") ∉ existing_files clips) :
    (⟨foo, relative_path (foo ++ ".mp3")⟩ : Clip) ∈ reconcile clips listing := by
  rw [reconcile_eq]
  refine List.mem_append_right _ ?_
  have hcn := clip_name_append_mp3 foo hsep hdot
  have hrec : (⟨clip_name (foo ++ ".mp3"), relative_path (foo ++ ".mp3")⟩ : Clip) =
      ⟨foo, relative_path (foo ++ ".mp3")⟩ := by rw [hcn]
  rw [← hrec]
  unfold new_clips
  apply List.mem_map_of_mem
  rw [List.mem_filter]
  exact ⟨hm, by simp [isMp3_append, h2]⟩

theorem clip_name_derivation_witness :
    (∃ c ∈ ("zap" : String).data, c ≠ '.') ∧
      (⟨"zap", relative_path ("zap" ++ ".mp3")⟩ : Clip) ∈ reconcile [] ["zap.mp3"] :=
  ⟨by decide,
    clip_name_derivation [] ["zap.mp3"] "zap" (by decide) (by decide)
      (by decide) (by decide)⟩

/-! ### Raw-JSON level: the whole pass on documents of arbitrary shape

`json.load` can hand the script any JSON value; the script then evaluates
`data["clips"]`, the set comprehension over the records,
the append loop, and only afterwards rewrites the file. The model below
follows that evaluation order, so a shape error surfaces before the write. -/

/-- A parsed JSON value. -/
inductive JVal where
  | null
  | bool (b : Bool)
  | num (n : Int)
  | str (s : String)
  | arr (xs : List JVal)
  | obj (fields : List (String × JVal))

/-- The exceptions the script's happy path can raise after loading. -/
inductive PyErr where
  | keyError (k : String)
  | typeError
  | attributeError
deriving DecidableEq, Repr

/-- Lookup in a parsed JSON object (`json.load` yields a dict, so keys are
unique and lookup order is immaterial). -/
def lookupJ (k : String) : List (String × JVal) → Option JVal
  | [] => none
  | kv :: rest => if kv.1 = k then some kv.2 else lookupJ k rest

/-- Subscripting `v` with a string key `k`: a dict yields the value or
`KeyError`; every other value raises `TypeError`. -/
def getItem (v : JVal) (k : String) : Except PyErr JVal :=
  match v with
  | .obj fields =>
    match lookupJ k fields with
    | some x => .ok x
    | none => .error (.keyError k)
  | _ => .error (.typeError)

/-- Iterating over a JSON value: a list yields its elements, a string its
characters, a dict its keys; other values are not iterable (`TypeError`). -/
def iterElems : JVal → Except PyErr (List JVal)
  | .arr xs => .ok xs
  | .str s => .ok (s.data.map fun c => .str (String.mk [c]))
  | .obj fields => .ok (fields.map fun kv => .str kv.1)
  | _ => .error .typeError

/-- Python values a set may hold: lists and dicts are unhashable. -/
def hashable : JVal → Bool
  | .arr _ => false
  | .obj _ => false
  | _ => true

/-- One element of the set comprehension: `clip["file"]`, then insertion into
the set (which rejects unhashable values). -/
def getFileVal (clip : JVal) : Except PyErr JVal :=
  match getItem clip "file" with
  | .error e => .error e
  | .ok f => if hashable f then .ok f else .error .typeError

/-- The set comprehension `{clip["file"] for clip in data["clips"]}`:
evaluate `clip["file"]` for each record left to right, raising the first
error encountered. -/
def collectFiles : List JVal → Except PyErr (List JVal)
  | [] => .ok []
  | clip :: rest =>
    match getFileVal clip with
    | .error e => .error e
    | .ok f =>
      match collectFiles rest with
      | .error e => .error e
      | .ok fs => .ok (f :: fs)

/-- Membership of the string `relative_path` in the existing-files set:
a string equals a set member only if that member is the same string. -/
def jeqStr (p : String) : JVal → Bool
  | .str s => p = s
  | _ => false

/-- The loop of the script at the JSON level: the records it appends, as raw
JSON objects, against the snapshot `existing` of the set comprehension. -/
def newJRecords (existing : List JVal) (listing : List String) : List JVal :=
  listing.foldl
    (fun acc m =>
      if isMp3 m then
        if existing.any (jeqStr (relative_path m)) then acc
        else acc ++ [JVal.obj [("name", JVal.str (clip_name m)),
                               ("file", JVal.str (relative_path m))]]
      else acc)
    []

/-- Replace the value stored under `k` (mutating the dict entry in place). -/
def setKey (fields : List (String × JVal)) (k : String) (v : JVal) :
    List (String × JVal) :=
  fields.map fun kv => if kv.1 = k then (k, v) else kv

/-- Everything the script does between load and write, on the raw document:
`data["clips"]`, the set comprehension over it, the append loop, and the value
handed to `json.dump`. `.append` exists only on lists, so a non-list `clips`
value raises `AttributeError` at the first append; with nothing to append the
document is written back as loaded. -/
def importClips (doc : JVal) (listing : List String) : Except PyErr JVal :=
  match doc with
  | .obj fields =>
    match lookupJ "clips" fields with
    | none => .error (.keyError "clips")
    | some clipsVal =>
      match iterElems clipsVal with
      | .error e => .error e
      | .ok records =>
        match collectFiles records with
        | .error e => .error e
        | .ok existing =>
          match clipsVal with
          | .arr xs =>
            .ok (.obj (setKey fields "clips" (.arr (xs ++ newJRecords existing listing))))
          | _ =>
            if (newJRecords existing listing).isEmpty then .ok (.obj fields)
            else .error .attributeError
  | _ => .error .typeError

/-- The catalog file across one run: on success the file holds the value
handed to `json.dump`; when an error is raised first, the write with-block is
never entered and the file keeps its prior content. -/
def runOnFile (content : JVal) (listing : List String) : JVal :=
  match importClips content listing with
  | .ok d => d
  | .error _ => content

/-- If any record of the list makes `getFileVal` raise, the whole set
comprehension raises (whichever record is reached first). -/
lemma collectFiles_error (rs : List JVal) (r : JVal) (hr : r ∈ rs)
    (he : ∃ e, getFileVal r = .error e) :
    ∃ e, collectFiles rs = Except.error e := by
  induction rs with
  | nil => cases hr
  | cons a rest ih =>
    cases ha : getFileVal a with
    | error e => exact ⟨e, by simp [collectFiles, ha]⟩
    | ok v =>
      rcases List.mem_cons.mp hr with rfl | hr'
      · obtain ⟨e, he⟩ := he
        rw [ha] at he
        cases he
      · obtain ⟨e, hme⟩ := ih hr'
        exact ⟨e, by simp [collectFiles, ha, hme]⟩

/-- C8. Error atomicity on bad shape: a loaded document without a `"clips"`
key raises `KeyError` (and one whose `"clips"` list holds a record without a
`"file"` key raises as well) before the write step, so the catalog file's
content is unchanged by the run. -/
theorem bad_shape_fails_before_write :
    (∀ (fields : List (String × JVal)) (listing : List String),
        lookupJ "clips" fields = none →
          importClips (.obj fields) listing = .error (.keyError "clips") ∧
            runOnFile (.obj fields) listing = .obj fields) ∧
    (∀ (fields : List (String × JVal)) (listing : List String) (rs : List JVal)
        (rf : List (String × JVal)),
        lookupJ "clips" fields = some (.arr rs) → JVal.obj rf ∈ rs →
          lookupJ "file" rf = none →
            (∃ e, importClips (.obj fields) listing = Except.error e) ∧
              runOnFile (.obj fields) listing = .obj fields) := by
  constructor
  · intro fields listing h
    have h1 : importClips (.obj fields) listing = .error (.keyError "clips") := by
      simp [importClips, h]
    exact ⟨h1, by rw [runOnFile, h1]⟩
  · intro fields listing rs rf hc hr hf
    have he : ∃ e, getFileVal (JVal.obj rf) = Except.error e :=
      ⟨.keyError "file", by simp [getFileVal, getItem, hf]⟩
    obtain ⟨e, hme⟩ := collectFiles_error rs _ hr he
    have h1 : importClips (.obj fields) listing = .error e := by
      simp [importClips, hc, iterElems, hme]
    exact ⟨⟨e, h1⟩, by rw [runOnFile, h1]⟩

theorem bad_shape_fails_before_write_witness :
    (importClips (.obj [("title", .str "sfx")]) ["zap.mp3"] =
        .error (.keyError "clips") ∧
      runOnFile (.obj [("title", .str "sfx")]) ["zap.mp3"] =
        .obj [("title", .str "sfx")]) ∧
      runOnFile (.obj [("clips", .arr [.obj [("name", .str "boom")]])]) ["zap.mp3"] =
        .obj [("clips", .arr [.obj [("name", .str "boom")]])] :=
  ⟨bad_shape_fails_before_write.1 [("title", .str "sfx")] ["zap.mp3"] rfl,
    (bad_shape_fails_before_write.2 [("clips", .arr [.obj [("name", .str "boom")]])]
      ["zap.mp3"] [.obj [("name", .str "boom")]] [("name", .str "boom")] rfl
      (List.mem_singleton.mpr rfl) rfl).2⟩
